import Mathlib

/-!
Verification of the substation DSL front end (dsl/parser.py, dsl/ir_types.py,
dsl/validator.py): a shallow embedding of the tree-to-IR transformer and of
the semantic validator, together with theorems settling the specification
claims about them.

Modelling conventions:
* Python floats are modelled as exact rationals.
* Python dicts are modelled as insertion-ordered association lists with
  unique keys; `dictGet` is `dict.get`, `dictSet` is `d[k] = v`
  (overwrite in place, else append), `dictUpdate` is `d.update(u)`.
* Fallible Python code (raise) is modelled with `Except`; the dynamic
  `TypeError` that CPython raises on an unhashable dict key is a separate
  error constructor from the `DSLValidationError` family.
-/

/-- Attribute values as produced by the transformer: numbers (`NUM` tokens,
coerced to float), strings (`STRING` tokens, quotes stripped; also `ID` and
enum tokens) and booleans (`BOOL` tokens).  Composite values (lists, nested
dicts such as `seq_params`) are not needed by any claim and are omitted. -/
inductive Value where
  | num (q : ℚ)
  | str (s : String)
  | boolV (b : Bool)
deriving DecidableEq, Repr

/-- A terminal chain element: in the source these are the dict values
`{"OPEN_END": True}` (rule `OPEN_END`) and `{"STUB": s}` (rule `stub_obj`). -/
inductive TermV where
  | openEnd
  | stub (label : String)
deriving DecidableEq, Repr

/-- An element of a CONNECT series: a plain identifier (a Python `str`) or a
terminal (a Python `dict`); the validator distinguishes the two cases with
`isinstance(itm, dict)`. -/
inductive ChainItem where
  | id (s : String)
  | term (t : TermV)
deriving DecidableEq, Repr

/-- `d.get(k)` on an insertion-ordered dict modelled as an association list. -/
def dictGet {α : Type} : List (String × α) → String → Option α
  | [], _ => none
  | (k, v) :: rest, key => if k = key then some v else dictGet rest key

/-- `d[k] = v`: overwrite the entry in place if the key is present, else
append a new entry at the end (CPython dict insertion-order semantics). -/
def dictSet {α : Type} : List (String × α) → String → α → List (String × α)
  | [], k, v => [(k, v)]
  | (k0, v0) :: rest, k, v =>
      if k0 = k then (k, v) :: rest else (k0, v0) :: dictSet rest k v

/-- `d.update(u)`: assign every entry of `u`, in order, into `d`. -/
def dictUpdate {α : Type} (d u : List (String × α)) : List (String × α) :=
  u.foldl (fun acc p => dictSet acc p.1 p.2) d

/-- `_pairs_to_dict` (parser.py): build a dict from key/value pairs, later
keys overriding earlier ones.  The same semantics builds the dict literals
written in the `add_*` handlers. -/
def pairs_to_dict {α : Type} (l : List (String × α)) : List (String × α) :=
  dictUpdate [] l

/-- `_merge_front` (parser.py): merge an optional extension dict into the
mandatory attributes; mandatory (main) keys win on collision, and an absent
or empty extension leaves the main dict unchanged. -/
def merge_front (kvs_main : List (String × Value))
    (kvs_extra : Option (List (String × Value))) : List (String × Value) :=
  match kvs_extra with
  | none => kvs_main
  | some e => if e.isEmpty then kvs_main else dictUpdate e kvs_main

namespace IrTypes

/-- `ir_types.Object`: id, kind tag (field name `type` in the source) and
attribute dict. -/
structure Object where
  id : String
  type : String
  attrs : List (String × Value)
deriving DecidableEq, Repr

/-- `ir_types.IR`: object table keyed by id, list of CONNECT chains (each a
list of ids and terminal dicts), page list and style map.  The parser-side
`IR` additionally carries a `meta` map; validate never reads it, and it is
included here so the frame property can speak about it.  Page payloads are
abstracted to attribute dicts (no claim inspects them). -/
structure IR where
  objects : List (String × Object)
  series : List (List ChainItem)
  pages : List (String × Value)
  style : List (String × Value)
  meta : List (String × Value)
deriving DecidableEq, Repr

end IrTypes

/-- Errors arising while validating: `dsl` is `DSLValidationError(code, msg)`;
`pyTypeError` is the dynamic `TypeError` CPython raises (for example on an
unhashable key, or on subtracting non-numbers). -/
inductive VErr where
  | dsl (code : String) (msg : String)
  | pyTypeError (msg : String)
deriving DecidableEq, Repr

/-- The `DSLValidationError` code of a validation outcome, if any. -/
def errCode? : Except VErr Unit → Option String
  | .error (.dsl c _) => some c
  | _ => none

instance {ε α : Type} [DecidableEq ε] [DecidableEq α] : DecidableEq (Except ε α) :=
  fun a b =>
    match a, b with
    | .ok x, .ok y =>
        if h : x = y then isTrue (by rw [h])
        else isFalse (by intro h2; injection h2; exact h (by assumption))
    | .error x, .error y =>
        if h : x = y then isTrue (by rw [h])
        else isFalse (by intro h2; injection h2; exact h (by assumption))
    | .ok _, .error _ => isFalse (fun h2 => Except.noConfusion h2)
    | .error _, .ok _ => isFalse (fun h2 => Except.noConfusion h2)

def dupIdsErr : VErr := .dsl "E.ID.DUP" "Duplicate object ids found."

def emptyChainErr : VErr := .dsl "E.CONNECT.EMPTY" "Empty CONNECT series."

def endpointErr : VErr :=
  .dsl "E.CONNECT.ENDPOINT" "OPEN_END/STUB allowed only at start or end of series."

/-- The `E.VOLT.MISMATCH` message names the two ids; the numeric voltage
formatting of the Python message is not reproduced. -/
def voltErr (a b : String) : VErr :=
  .dsl "E.VOLT.MISMATCH" ("Voltage mismatch between " ++ a ++ " and " ++ b ++ ".")

def brkUnusedErr (b : String) : VErr :=
  .dsl "E.PROT.BRK_UNUSED" ("Breaker " ++ b ++ " is not connected.")

/-- Rule 1 of `validate`: `len(set(ir.objects.keys())) != len(ir.objects)`.
The cardinality of the key set is the length of the deduplicated key list. -/
def checkDupKeys (keys : List String) : Except VErr Unit :=
  if keys.dedup.length ≠ keys.length then .error dupIdsErr else .ok ()

/-- Rule 2 inner loop of `validate`: scan a chain with its running index and
raise `E.CONNECT.ENDPOINT` on the first dict element whose index is neither
`0` nor `len(chain)-1`.  `n` is the chain length. -/
def endpointLoop (n : Nat) : Nat → List ChainItem → Except VErr Unit
  | _, [] => .ok ()
  | i, itm :: rest =>
      match itm with
      | .term _ =>
          if i = 0 ∨ i = n - 1 then endpointLoop n (i + 1) rest
          else .error endpointErr
      | .id _ => endpointLoop n (i + 1) rest

/-- The numeric view Python arithmetic takes of an attribute value: floats
are numbers and bools coerce to 0/1; strings and lists are not numbers (the
subtraction in the voltage check would raise `TypeError` on them). -/
def toNum? : Value → Option ℚ
  | .num q => some q
  | .boolV b => some (if b then 1 else 0)
  | _ => none

/-- Rule 3 body of `validate` for one adjacent pair `(a, b)` of a chain:
skip if either element is a terminal dict, either referenced object is
missing, or either object is a `TRANSFORMER` or `BUS`; otherwise read both
`kv` attributes and, when both are present, compare
`abs(kva - kvb) > 0.15 * max(kva, kvb)`. -/
def checkPair (objects : List (String × IrTypes.Object)) (a b : ChainItem) :
    Except VErr Unit :=
  match a, b with
  | .id sa, .id sb =>
      match dictGet objects sa, dictGet objects sb with
      | some oa, some ob =>
          if oa.type = "TRANSFORMER" ∨ oa.type = "BUS" ∨
             ob.type = "TRANSFORMER" ∨ ob.type = "BUS" then .ok ()
          else
            match dictGet oa.attrs "kv", dictGet ob.attrs "kv" with
            | some va, some vb =>
                match toNum? va, toNum? vb with
                | some kva, some kvb =>
                    if |kva - kvb| > (15 / 100 : ℚ) * max kva kvb then
                      .error (voltErr sa sb)
                    else .ok ()
                | _, _ =>
                    .error (.pyTypeError "unsupported operand type for subtraction")
            | _, _ => .ok ()
      | _, _ => .ok ()
  | _, _ => .ok ()

/-- Rule 3 of `validate`: walk `zip(chain, chain[1:])` failing fast. -/
def voltLoop (objects : List (String × IrTypes.Object)) :
    List ChainItem → Except VErr Unit
  | a :: b :: rest =>
      match checkPair objects a b with
      | .error e => .error e
      | .ok _ => voltLoop objects (b :: rest)
  | _ => .ok ()

/-- The per-chain part of `validate`: empty check, then endpoint scan, then
voltage scan, in the order of the source. -/
def checkChain (objects : List (String × IrTypes.Object))
    (chain : List ChainItem) : Except VErr Unit :=
  if chain.isEmpty then .error emptyChainErr
  else
    match endpointLoop chain.length 0 chain with
    | .error e => .error e
    | .ok _ => voltLoop objects chain

/-- The `for chain in ir.series` loop of `validate`, failing fast. -/
def chainsLoop (objects : List (String × IrTypes.Object)) :
    List (List ChainItem) → Except VErr Unit
  | [] => .ok ()
  | c :: rest =>
      match checkChain objects c with
      | .error e => .error e
      | .ok _ => chainsLoop objects rest

/-- The plain-identifier payload of a chain element, if it is one. -/
def itemId : ChainItem → Option String
  | .id s => some s
  | .term _ => none

/-- `in_series` of rule 4: every element of every chain that is a `str`. -/
def chainIds : List (List ChainItem) → List String
  | [] => []
  | c :: rest => c.filterMap itemId ++ chainIds rest

/-- Rule 4 of `validate`: every object of kind `BREAKER` must appear in some
chain; report the first one that does not. -/
def breakerCheck (objects : List (String × IrTypes.Object))
    (series : List (List ChainItem)) : Except VErr Unit :=
  let breakers := (objects.filter fun p => decide (p.2.type = "BREAKER")).map Prod.fst
  let inSeries := chainIds series
  match breakers.find? (fun b => decide (b ∉ inSeries)) with
  | some b => .error (brkUnusedErr b)
  | none => .ok ()

/-- `validate(ir)` (validator.py): the fixed ordered rule battery, stopping
at the first violation. -/
def validate (ir : IrTypes.IR) : Except VErr Unit :=
  match checkDupKeys (ir.objects.map Prod.fst) with
  | .error e => .error e
  | .ok _ =>
      match chainsLoop ir.objects ir.series with
      | .error e => .error e
      | .ok _ => breakerCheck ir.objects ir.series

/-- `validate` with the IR state threaded explicitly: the source performs no
assignment to `ir` or to any of its fields, so each step hands the incoming
state through unchanged. -/
def validateSt (ir : IrTypes.IR) : Except VErr Unit × IrTypes.IR :=
  match checkDupKeys (ir.objects.map Prod.fst) with
  | .error e => (.error e, ir)
  | .ok _ =>
      match chainsLoop ir.objects ir.series with
      | .error e => (.error e, ir)
      | .ok _ => (breakerCheck ir.objects ir.series, ir)

namespace DslParser

/-- `parser.ObjectIR`: like `ir_types.Object` but carrying the source
location of the `ADD_*` statement. -/
structure ObjectIR where
  id : String
  type : String
  attrs : List (String × Value)
  loc : Nat × Nat
deriving DecidableEq, Repr

/-- `parser.IR`: the object table, the series list whose entries are
`(chain, loc)` PAIRS (unlike `ir_types.IR`, whose entries are the chains
themselves), and the page/style/meta maps.  Page payloads are abstracted to
attribute dicts (no claim inspects them). -/
structure IR where
  objects : List (String × ObjectIR)
  series : List (List ChainItem × (Nat × Nat))
  pages : List (String × Value)
  style : List (String × Value)
  meta : List (String × Value)
deriving DecidableEq, Repr

/-- The empty IR allocated afresh by `ToIR.__init__` for each parse call. -/
def emptyIR : IR := ⟨[], [], [], [], []⟩

end DslParser

/-- Transformation-time failures of `ToIR.add_stmt` (raised as `ValueError`
in the source): a missing or empty mandatory id, or a duplicate id.  Both
carry the statement line.  This family is distinct from `VErr`: a transform
failure happens before any validator rule can run. -/
inductive TErr where
  | missingId (typ : String) (line : Nat)
  | dupId (oid : String) (line : Nat)
deriving DecidableEq, Repr

/-- Modelled from the spec: the grammar file `grammar_ebnf.lark` is not under
`src/`, so source text is modelled at the level at which the `ToIR`
transformer receives statements.  Each `ADD_<KIND>` statement supplies its
kind tag, its mandatory `id` (an `ID` token, hence a string), the remaining
mandatory key/values in the fixed grammar order, and an optional extension
dict (`opt_kvs`); each `CONNECT` statement supplies its bracketed element
list; `PAGE`/`STYLE`/`LABEL`/`SET_LAYOUT`/`VALIDATE`/`EMIT_SPEC` statements
do not touch the object table or the series list and are folded into one
no-op constructor. -/
inductive Stmt where
  | addStmt (typ : String) (id : String) (rest : List (String × Value))
      (extra : Option (List (String × Value))) (loc : Nat × Nat)
  | connectStmt (items : List ChainItem) (loc : Nat × Nat)
  | otherStmt
deriving DecidableEq, Repr

/-- The mandatory-attribute dict literal an `add_*` handler builds:
`{"id": id_value, key1: v1, ...}` with the id entry first. -/
def mandKvs (id : String) (rest : List (String × Value)) : List (String × Value) :=
  pairs_to_dict (("id", Value.str id) :: rest)

/-- `ToIR.add_stmt`: read the `id` attribute from the merged dict, fail when
it is absent or empty, fail when the id is already a key of the object
table, otherwise insert the new object at the end of the table.  The id
attribute is always an `ID` token (a string) per the grammar; a non-string
value under the id key cannot arise and is mapped to the missing-id
failure. -/
def add_stmt (ir : DslParser.IR) (typ : String) (kvs : List (String × Value))
    (loc : Nat × Nat) : Except TErr DslParser.IR :=
  match dictGet kvs "id" with
  | some (Value.str oid) =>
      if oid = "" then .error (.missingId typ loc.1)
      else if oid ∈ ir.objects.map Prod.fst then .error (.dupId oid loc.1)
      else .ok { ir with objects := ir.objects ++ [(oid, ⟨oid, typ, kvs, loc⟩)] }
  | _ => .error (.missingId typ loc.1)

/-- `ToIR.connect_stmt`: append the `(series_list, loc)` pair to
`ir.series`. -/
def connect_stmt (ir : DslParser.IR) (items : List ChainItem)
    (loc : Nat × Nat) : Except TErr DslParser.IR :=
  .ok { ir with series := ir.series ++ [(items, loc)] }

/-- Dispatch one statement: `ADD_*` builds the mandatory dict, folds in the
extension block with `_merge_front` and registers the object; `CONNECT`
appends a chain; the remaining statement kinds return `None` without
touching the IR. -/
def runStmt (ir : DslParser.IR) : Stmt → Except TErr DslParser.IR
  | .addStmt typ id rest extra loc => add_stmt ir typ (merge_front (mandKvs id rest) extra) loc
  | .connectStmt items loc => connect_stmt ir items loc
  | .otherStmt => .ok ir

/-- The transformer pass over the statement list, failing fast. -/
def runStmts : DslParser.IR → List Stmt → Except TErr DslParser.IR
  | ir, [] => .ok ir
  | ir, s :: rest =>
      match runStmt ir s with
      | .ok ir2 => runStmts ir2 rest
      | .error e => .error e

/-- `parse`: allocate a fresh transformer state (`ToIR()` sets
`self.ir = IR()`) and run the transformation pass over the statements of the
text. -/
def parse (stmts : List Stmt) : Except TErr DslParser.IR :=
  runStmts DslParser.emptyIR stmts

/-- The ids of all `ADD_*` statements of an input, in source order. -/
def addIds : List Stmt → List String
  | [] => []
  | .addStmt _ id _ _ _ :: rest => id :: addIds rest
  | _ :: rest => addIds rest

/-- For an `ADD_*` statement: the remaining mandatory keys do not include
`"id"`.  This holds for every handler in the source: each builds its dict
literal from a fixed key list (`kv`, `kind`, `type`, ...) disjoint from
`id`. -/
def restOk : Stmt → Prop
  | .addStmt _ _ rest _ _ => ∀ q ∈ rest, q.1 ≠ "id"
  | _ => True

instance : DecidablePred restOk := by
  intro s
  cases s <;> simp only [restOk] <;> infer_instance

/-- For an `ADD_*` statement: the id is non-empty.  The grammar requires an
`ID` token after `id=`, and `ID` tokens are non-empty. -/
def idOk : Stmt → Prop
  | .addStmt _ id _ _ _ => id ≠ ""
  | _ => True

instance : DecidablePred idOk := by
  intro s
  cases s <;> simp only [idOk] <;> infer_instance

/-- The view of a parsed IR that `ir_types.IR` (the validator input type)
declares: each series entry is the chain itself, without the location. -/
def toIrTypes (ir : DslParser.IR) : IrTypes.IR :=
  { objects := ir.objects.map fun p => (p.1, ⟨p.2.id, p.2.type, p.2.attrs⟩)
    series := ir.series.map Prod.fst
    pages := ir.pages
    style := ir.style
    meta := ir.meta }

/-- `in_series` of rule 4 when `validate` is fed a parser IR: iterating a
series entry, which is a `(chain, loc)` 2-tuple, yields the chain list and
the location tuple; neither is a Python `str`, so the comprehension collects
nothing. -/
def inSeriesParsed (_series : List (List ChainItem × (Nat × Nat))) : List String :=
  []

/-- What `validate` (validator.py) does when applied directly to the IR
returned by `parse` (parser.py), whose `series` entries are `(chain, loc)`
pairs rather than the chains `ir_types.IR` declares.  Tracing the source on
such an entry: `if not chain` is false, a 2-tuple being truthy; the
enumerate loop sees the chain list and the location tuple, neither of which
is a dict, so the endpoint rule never fires; `zip(chain, chain[1:])` yields
exactly the pair (chain list, location tuple), neither of which is a dict,
so the code evaluates `ir.objects.get(a)` with the chain list as key, and
CPython raises `TypeError` (unhashable type: list).  This happens for the
first series entry regardless of its content; with no series entry, rule 4
runs with an empty `in_series`. -/
def validateParsed (ir : DslParser.IR) : Except VErr Unit :=
  match checkDupKeys (ir.objects.map Prod.fst) with
  | .error e => .error e
  | .ok _ =>
      match ir.series with
      | [] =>
          let breakers := (ir.objects.filter fun p => decide (p.2.type = "BREAKER")).map Prod.fst
          match breakers.find? (fun b => decide (b ∉ inSeriesParsed ir.series)) with
          | some b => .error (brkUnusedErr b)
          | none => .ok ()
      | _ :: _ => .error (.pyTypeError "unhashable type: list")

/-- The statements of spec scenario 1: `ADD_BUS id=b1, kv=138`, then
`ADD_LINE id=l1, kv=138, type=OHL, length_km=10, thermal_A=1000`, then
`CONNECT series=[b1, l1]`. -/
def c1Stmts : List Stmt :=
  [ .addStmt "BUS" "b1" [("kv", .num 138)] none (1, 1),
    .addStmt "LINE" "l1"
      [("kv", .num 138), ("type", .str "OHL"), ("length_km", .num 10),
       ("thermal_A", .num 1000)] none (2, 1),
    .connectStmt [.id "b1", .id "l1"] (3, 1) ]

/-- The IR scenario 1 parses to (total extraction with a default). -/
def c1IR : DslParser.IR :=
  match parse c1Stmts with
  | .ok ir => ir
  | .error _ => DslParser.emptyIR

/-- Four LINE objects; the first chain pairs two equal voltages, the second
chain pairs 100 with 200 (over the 15 percent tolerance). -/
def exC2bad : IrTypes.IR :=
  { objects := [("a", ⟨"a", "LINE", [("id", .str "a"), ("kv", .num 100)]⟩),
                ("b", ⟨"b", "LINE", [("id", .str "b"), ("kv", .num 100)]⟩),
                ("c", ⟨"c", "LINE", [("id", .str "c"), ("kv", .num 100)]⟩),
                ("d", ⟨"d", "LINE", [("id", .str "d"), ("kv", .num 200)]⟩)]
    series := [[.id "a", .id "b"], [.id "c", .id "d"]]
    pages := []
    style := []
    meta := [] }

/-- Two LINE objects at 100 and 200 kV joined by one chain. -/
def exC2w : IrTypes.IR :=
  { objects := [("x", ⟨"x", "LINE", [("id", .str "x"), ("kv", .num 100)]⟩),
                ("y", ⟨"y", "LINE", [("id", .str "y"), ("kv", .num 200)]⟩)]
    series := [[.id "x", .id "y"]]
    pages := []
    style := []
    meta := [] }

/-- An empty first chain followed by a chain with a mid-position terminal. -/
def exC3bad : IrTypes.IR :=
  { objects := []
    series := [[], [.id "p", .term .openEnd, .id "q"]]
    pages := []
    style := []
    meta := [] }

/-- One chain with a terminal in the middle. -/
def exC3w : IrTypes.IR :=
  { objects := []
    series := [[.id "p", .term .openEnd, .id "q"]]
    pages := []
    style := []
    meta := [] }

/-- One BREAKER object that appears in no chain. -/
def exC5w : IrTypes.IR :=
  { objects := [("bk", ⟨"bk", "BREAKER", [("id", .str "bk"), ("kv", .num 138)]⟩)]
    series := [[.id "z"]]
    pages := []
    style := []
    meta := [] }

/-- A one-object IR with (necessarily) duplicate-free keys. -/
def exC9w : IrTypes.IR :=
  { objects := [("a", ⟨"a", "BUS", [("id", .str "a"), ("kv", .num 138)]⟩)]
    series := []
    pages := []
    style := []
    meta := [] }

/-- Two `ADD_*` statements of different kinds sharing the id `b1`. -/
def exC4Stmts : List Stmt :=
  [ .addStmt "BUS" "b1" [("kv", .num 138)] none (1, 1),
    .addStmt "BREAKER" "b1"
      [("kv", .num 138), ("interrupting_kA", .num 40), ("type", .str "SF6"),
       ("continuous_A", .num 2000)] none (2, 1) ]

/-- A mandatory dict and an extension dict colliding on the key `kv`. -/
def exC6M : List (String × Value) := [("id", .str "t1"), ("kv", .num 138)]

def exC6E : List (String × Value) := [("kv", .num 999), ("color", .str "red")]

theorem dictGet_dictSet {α : Type} (d : List (String × α)) (k : String) (v : α)
    (k2 : String) :
    dictGet (dictSet d k v) k2 = if k2 = k then some v else dictGet d k2 := by
  induction d with
  | nil =>
      simp only [dictSet, dictGet]
      by_cases h : k = k2
      · rw [if_pos h, if_pos h.symm]
      · rw [if_neg h, if_neg (fun h2 => h h2.symm)]
  | cons hd tl ih =>
      by_cases h1 : hd.1 = k
      · simp only [dictSet, if_pos h1, dictGet]
        by_cases h2 : k = k2
        · rw [if_pos h2, if_pos h2.symm]
        · rw [if_neg h2, if_neg (fun h3 => h2 h3.symm),
            if_neg (fun h3 => h2 (h1.symm.trans h3))]
      · simp only [dictSet, if_neg h1, dictGet, ih]
        by_cases h3 : hd.1 = k2
        · have h4 : ¬ k2 = k := fun h5 => h1 (h3.trans h5)
          rw [if_pos h3, if_neg h4, if_pos h3]
        · rw [if_neg h3, if_neg h3]

theorem dictGet_eq_none_of_not_mem {α : Type} (d : List (String × α)) (k : String)
    (h : k ∉ d.map Prod.fst) : dictGet d k = none := by
  induction d with
  | nil => rfl
  | cons hd tl ih =>
      simp only [List.map_cons, List.mem_cons, not_or] at h
      simp only [dictGet]
      rw [if_neg (fun h2 => h.1 h2.symm)]
      exact ih h.2

theorem not_mem_of_dictGet_eq_none {α : Type} (d : List (String × α)) (k : String)
    (h : dictGet d k = none) : k ∉ d.map Prod.fst := by
  induction d with
  | nil => simp
  | cons hd tl ih =>
      simp only [dictGet] at h
      by_cases h1 : hd.1 = k
      · rw [if_pos h1] at h
        exact absurd h (by simp)
      · rw [if_neg h1] at h
        simp only [List.map_cons, List.mem_cons, not_or]
        exact ⟨fun h2 => h1 h2.symm, ih h⟩

theorem dictGet_mem {α : Type} (d : List (String × α)) (k : String) (v : α)
    (h : dictGet d k = some v) : (k, v) ∈ d := by
  induction d with
  | nil => simp [dictGet] at h
  | cons hd tl ih =>
      simp only [dictGet] at h
      by_cases h1 : hd.1 = k
      · rw [if_pos h1] at h
        have h2 : hd.2 = v := Option.some.inj h
        have h3 : hd = (k, v) := by
          obtain ⟨a, b⟩ := hd
          simp only at h1 h2
          rw [h1, h2]
        rw [← h3]
        exact List.mem_cons_self hd tl
      · rw [if_neg h1] at h
        exact List.mem_cons_of_mem _ (ih h)

theorem mem_keys_dictSet {α : Type} (d : List (String × α)) (k : String) (v : α)
    (k2 : String) :
    k2 ∈ (dictSet d k v).map Prod.fst ↔ k2 ∈ d.map Prod.fst ∨ k2 = k := by
  induction d with
  | nil => simp [dictSet]
  | cons hd tl ih =>
      by_cases h1 : hd.1 = k
      · simp only [dictSet, if_pos h1, List.map_cons, List.mem_cons]
        rw [← h1]
        tauto
      · simp only [dictSet, if_neg h1, List.map_cons, List.mem_cons, ih]
        tauto

theorem nodup_keys_dictSet {α : Type} (d : List (String × α)) (k : String) (v : α)
    (h : (d.map Prod.fst).Nodup) : ((dictSet d k v).map Prod.fst).Nodup := by
  induction d with
  | nil => simp [dictSet]
  | cons hd tl ih =>
      simp only [List.map_cons, List.nodup_cons] at h
      by_cases h1 : hd.1 = k
      · simp only [dictSet, if_pos h1, List.map_cons, List.nodup_cons]
        refine ⟨?_, h.2⟩
        rw [← h1]
        exact h.1
      · simp only [dictSet, if_neg h1, List.map_cons, List.nodup_cons]
        refine ⟨fun h2 => ?_, ih h.2⟩
        rcases (mem_keys_dictSet tl k v hd.1).mp h2 with h3 | h3
        · exact h.1 h3
        · exact h1 h3

theorem nodup_keys_dictUpdate {α : Type} (u : List (String × α)) :
    ∀ d : List (String × α), (d.map Prod.fst).Nodup →
      ((dictUpdate d u).map Prod.fst).Nodup := by
  induction u with
  | nil => intro d h; exact h
  | cons hd tl ih =>
      intro d h
      have h2 : dictUpdate d (hd :: tl) = dictUpdate (dictSet d hd.1 hd.2) tl := rfl
      rw [h2]
      exact ih _ (nodup_keys_dictSet d hd.1 hd.2 h)

theorem nodup_keys_pairs_to_dict {α : Type} (l : List (String × α)) :
    ((pairs_to_dict l).map Prod.fst).Nodup :=
  nodup_keys_dictUpdate l [] (by simp)

theorem dictGet_dictUpdate_of_none {α : Type} (u : List (String × α)) :
    ∀ (d : List (String × α)) (k : String), dictGet u k = none →
      dictGet (dictUpdate d u) k = dictGet d k := by
  induction u with
  | nil => intro d k _; rfl
  | cons hd tl ih =>
      intro d k h
      simp only [dictGet] at h
      by_cases h1 : hd.1 = k
      · rw [if_pos h1] at h
        exact absurd h (by simp)
      · rw [if_neg h1] at h
        have h2 : dictUpdate d (hd :: tl) = dictUpdate (dictSet d hd.1 hd.2) tl := rfl
        rw [h2, ih _ k h, dictGet_dictSet]
        rw [if_neg (fun h3 => h1 h3.symm)]

theorem dictGet_dictUpdate_of_some {α : Type} (u : List (String × α)) :
    ∀ (d : List (String × α)) (k : String) (v : α), (u.map Prod.fst).Nodup →
      dictGet u k = some v → dictGet (dictUpdate d u) k = some v := by
  induction u with
  | nil => intro d k v _ h; simp [dictGet] at h
  | cons hd tl ih =>
      intro d k v hu h
      simp only [List.map_cons, List.nodup_cons] at hu
      simp only [dictGet] at h
      have h2 : dictUpdate d (hd :: tl) = dictUpdate (dictSet d hd.1 hd.2) tl := rfl
      by_cases h1 : hd.1 = k
      · rw [if_pos h1] at h
        have h3 : dictGet tl k = none := by
          apply dictGet_eq_none_of_not_mem
          rw [← h1]
          exact hu.1
        rw [h2, dictGet_dictUpdate_of_none tl _ k h3, dictGet_dictSet, if_pos h1.symm]
        exact h
      · rw [if_neg h1] at h
        rw [h2]
        exact ih _ k v hu.2 h

/-- Keys absent from the updating dict keep their original binding. -/
theorem dictGet_dictUpdate_not_mem_keys {α : Type} (u : List (String × α))
    (d : List (String × α)) (k : String) (h : k ∉ u.map Prod.fst) :
    dictGet (dictUpdate d u) k = dictGet d k :=
  dictGet_dictUpdate_of_none u d k (dictGet_eq_none_of_not_mem u k h)

/-- The id entry of the mandatory dict of an `add_*` handler: the handlers
never repeat the `id` key among the remaining mandatory keys. -/
theorem dictGet_mandKvs_id (id : String) (rest : List (String × Value))
    (h : ∀ q ∈ rest, q.1 ≠ "id") :
    dictGet (mandKvs id rest) "id" = some (Value.str id) := by
  have h1 : mandKvs id rest = dictUpdate [("id", Value.str id)] rest := rfl
  have h2 : "id" ∉ rest.map Prod.fst := by
    intro h3
    rcases List.mem_map.mp h3 with ⟨q, hq, hq2⟩
    exact h q hq hq2
  rw [h1, dictGet_dictUpdate_not_mem_keys rest _ "id" h2]
  rfl

/-- Main keys win in `_merge_front`. -/
theorem dictGet_merge_front_of_main (main : List (String × Value))
    (extra : Option (List (String × Value))) (k : String) (v : Value)
    (hm : (main.map Prod.fst).Nodup) (h : dictGet main k = some v) :
    dictGet (merge_front main extra) k = some v := by
  match extra with
  | none => exact h
  | some e =>
      simp only [merge_front]
      by_cases h1 : e.isEmpty
      · rw [if_pos h1]; exact h
      · rw [if_neg h1]
        exact dictGet_dictUpdate_of_some main e k v hm h

/-- Keys absent from the main dict fall through to the extension dict. -/
theorem dictGet_merge_front_of_main_none (main extra : List (String × Value))
    (k : String) (h : dictGet main k = none) :
    dictGet (merge_front main (some extra)) k = dictGet extra k := by
  simp only [merge_front]
  by_cases h1 : extra.isEmpty
  · rw [if_pos h1, h]
    have h2 : extra = [] := List.isEmpty_iff.mp h1
    rw [h2]
    rfl
  · rw [if_neg h1]
    exact dictGet_dictUpdate_of_none main extra k h

/-- The merged attribute dict of an `add_*` handler binds `id`. -/
theorem dictGet_merged_id (id : String) (rest : List (String × Value))
    (extra : Option (List (String × Value))) (h : ∀ q ∈ rest, q.1 ≠ "id") :
    dictGet (merge_front (mandKvs id rest) extra) "id" = some (Value.str id) :=
  dictGet_merge_front_of_main _ _ _ _ (nodup_keys_pairs_to_dict _)
    (dictGet_mandKvs_id id rest h)

theorem endpointLoop_dichotomy (n : Nat) :
    ∀ (i : Nat) (l : List ChainItem),
      endpointLoop n i l = .ok () ∨ endpointLoop n i l = .error endpointErr := by
  intro i l
  induction l generalizing i with
  | nil => exact Or.inl rfl
  | cons itm rest ih =>
      match itm with
      | .term t =>
          simp only [endpointLoop]
          by_cases h : i = 0 ∨ i = n - 1
          · rw [if_pos h]; exact ih (i + 1)
          · rw [if_neg h]; exact Or.inr rfl
      | .id s => exact ih (i + 1)

theorem endpointLoop_error_exists (n : Nat) :
    ∀ (i : Nat) (l : List ChainItem) (e : VErr), endpointLoop n i l = .error e →
      e = endpointErr ∧ ∃ j t, l[j]? = some (.term t) ∧ ¬(i + j = 0 ∨ i + j = n - 1) := by
  intro i l
  induction l generalizing i with
  | nil => intro e h; exact absurd h (by simp [endpointLoop])
  | cons itm rest ih =>
      intro e h
      match itm with
      | .term t =>
          simp only [endpointLoop] at h
          by_cases h1 : i = 0 ∨ i = n - 1
          · rw [if_pos h1] at h
            obtain ⟨h2, j, t2, h3, h4⟩ := ih (i + 1) e h
            refine ⟨h2, j + 1, t2, by simpa using h3, ?_⟩
            have h5 : i + 1 + j = i + (j + 1) := by omega
            rw [← h5]
            exact h4
          · rw [if_neg h1] at h
            refine ⟨(Except.error.inj h).symm, 0, t, by simp, by simpa using h1⟩
      | .id s =>
          simp only [endpointLoop] at h
          obtain ⟨h2, j, t2, h3, h4⟩ := ih (i + 1) e h
          refine ⟨h2, j + 1, t2, by simpa using h3, ?_⟩
          have h5 : i + 1 + j = i + (j + 1) := by omega
          rw [← h5]
          exact h4

theorem endpointLoop_error_of_exists (n : Nat) :
    ∀ (i : Nat) (l : List ChainItem) (j : Nat) (t : TermV),
      l[j]? = some (.term t) → ¬(i + j = 0 ∨ i + j = n - 1) →
      endpointLoop n i l = .error endpointErr := by
  intro i l
  induction l generalizing i with
  | nil => intro j t h _; simp at h
  | cons itm rest ih =>
      intro j t hj hcond
      match j with
      | 0 =>
          simp only [List.getElem?_cons_zero] at hj
          cases hj
          simp only [endpointLoop]
          rw [if_neg (by simpa using hcond)]
      | j2 + 1 =>
          simp only [List.getElem?_cons_succ] at hj
          have h5 : i + (j2 + 1) = (i + 1) + j2 := by omega
          rw [h5] at hcond
          have h6 := ih (i + 1) j2 t hj hcond
          match itm with
          | .term t3 =>
              simp only [endpointLoop]
              by_cases h1 : i = 0 ∨ i = n - 1
              · rw [if_pos h1]; exact h6
              · rw [if_neg h1]
          | .id s => exact h6

theorem voltLoop_ok_iff (objects : List (String × IrTypes.Object))
    (l : List ChainItem) :
    voltLoop objects l = .ok () ↔
      ∀ (j : Nat) (a b : ChainItem), l[j]? = some a → l[j + 1]? = some b →
        checkPair objects a b = .ok () := by
  induction l with
  | nil =>
      simp only [voltLoop, true_iff]
      intro j a b h
      simp at h
  | cons x tl ih =>
      match tl with
      | [] =>
          simp only [voltLoop, true_iff]
          intro j a b _ h2
          match j with
          | 0 => simp at h2
          | j2 + 1 =>
              simp only [List.getElem?_cons_succ] at h2
              simp at h2
      | y :: rest =>
          constructor
          · intro h j a b ha hb
            simp only [voltLoop] at h
            rcases h2 : checkPair objects x y with e | u
            · rw [h2] at h; exact absurd h (by simp)
            · rw [h2] at h
              match j with
              | 0 =>
                  simp only [List.getElem?_cons_zero, List.getElem?_cons_succ] at ha hb
                  cases ha
                  cases hb
                  cases u
                  exact h2
              | j2 + 1 =>
                  rw [List.getElem?_cons_succ] at ha hb
                  exact (ih.mp h) j2 a b ha hb
          · intro h
            simp only [voltLoop]
            have h0 := h 0 x y (by simp) (by simp)
            rw [h0]
            apply ih.mpr
            intro j a b ha hb
            exact h (j + 1) a b (by simpa using ha) (by simpa using hb)

theorem voltLoop_error_exists (objects : List (String × IrTypes.Object))
    (l : List ChainItem) (e : VErr) (h : voltLoop objects l = .error e) :
    ∃ (j : Nat) (a b : ChainItem), l[j]? = some a ∧ l[j + 1]? = some b ∧
      checkPair objects a b = .error e := by
  induction l with
  | nil => exact absurd h (by simp [voltLoop])
  | cons x tl ih =>
      match tl with
      | [] => exact absurd h (by simp [voltLoop])
      | y :: rest =>
          simp only [voltLoop] at h
          rcases h2 : checkPair objects x y with e2 | u
          · rw [h2] at h
            refine ⟨0, x, y, by simp, by simp, ?_⟩
            rw [h2]
            exact h
          · rw [h2] at h
            obtain ⟨j, a, b, ha, hb, hc⟩ := ih h
            exact ⟨j + 1, a, b, by simpa using ha, by simpa using hb, hc⟩

theorem checkChain_ok_iff (objects : List (String × IrTypes.Object))
    (c : List ChainItem) :
    checkChain objects c = .ok () ↔
      c ≠ [] ∧ endpointLoop c.length 0 c = .ok () ∧ voltLoop objects c = .ok () := by
  simp only [checkChain]
  by_cases hc : c.isEmpty
  · rw [if_pos hc]
    have h2 : c = [] := List.isEmpty_iff.mp hc
    simp [h2]
  · rw [if_neg hc]
    have h2 : c ≠ [] := fun h3 => hc (by simp [h3])
    rcases h3 : endpointLoop c.length 0 c with e | u
    · simp [h3]
    · cases u
      simp [h2, h3]

theorem checkChain_error_cases (objects : List (String × IrTypes.Object))
    (c : List ChainItem) (e : VErr) (h : checkChain objects c = .error e) :
    (c = [] ∧ e = emptyChainErr) ∨ endpointLoop c.length 0 c = .error e ∨
      (endpointLoop c.length 0 c = .ok () ∧ voltLoop objects c = .error e) := by
  simp only [checkChain] at h
  by_cases hc : c.isEmpty
  · rw [if_pos hc] at h
    exact Or.inl ⟨List.isEmpty_iff.mp hc, (Except.error.inj h).symm⟩
  · rw [if_neg hc] at h
    rcases h3 : endpointLoop c.length 0 c with e2 | u
    · simp only [h3] at h
      rw [show e = e2 from by simpa using h.symm]
      exact Or.inr (Or.inl rfl)
    · cases u
      simp only [h3] at h
      exact Or.inr (Or.inr ⟨rfl, h⟩)

theorem checkChain_error_of_endpoint (objects : List (String × IrTypes.Object))
    (c : List ChainItem) (e : VErr) (hne : c ≠ [])
    (h : endpointLoop c.length 0 c = .error e) : checkChain objects c = .error e := by
  simp only [checkChain]
  rw [if_neg (by simpa using hne), h]

theorem checkChain_error_of_volt (objects : List (String × IrTypes.Object))
    (c : List ChainItem) (e : VErr) (hne : c ≠ [])
    (hep : endpointLoop c.length 0 c = .ok ())
    (h : voltLoop objects c = .error e) : checkChain objects c = .error e := by
  simp only [checkChain]
  rw [if_neg (by simpa using hne), hep]
  exact h

theorem chainsLoop_ok_iff (objects : List (String × IrTypes.Object))
    (l : List (List ChainItem)) :
    chainsLoop objects l = .ok () ↔ ∀ c ∈ l, checkChain objects c = .ok () := by
  induction l with
  | nil => simp [chainsLoop]
  | cons c0 rest ih =>
      simp only [chainsLoop]
      rcases h : checkChain objects c0 with e | u
      · simp only [List.mem_cons]
        constructor
        · intro h2; exact absurd h2 (by simp)
        · intro h2
          have h3 := h2 c0 (Or.inl rfl)
          rw [h] at h3
          exact absurd h3 (by simp)
      · cases u
        rw [ih]
        constructor
        · intro h2 c hc
          rcases List.mem_cons.mp hc with h3 | h3
          · rw [h3]; exact h
          · exact h2 c h3
        · intro h2 c hc
          exact h2 c (List.mem_cons_of_mem _ hc)

theorem chainsLoop_error_exists (objects : List (String × IrTypes.Object))
    (l : List (List ChainItem)) (e : VErr) (h : chainsLoop objects l = .error e) :
    ∃ c ∈ l, checkChain objects c = .error e := by
  induction l with
  | nil => exact absurd h (by simp [chainsLoop])
  | cons c0 rest ih =>
      simp only [chainsLoop] at h
      rcases h2 : checkChain objects c0 with e2 | u
      · simp only [h2] at h
        refine ⟨c0, List.mem_cons_self c0 rest, ?_⟩
        rw [h2, show e2 = e from by simpa using h]
      · cases u
        simp only [h2] at h
        obtain ⟨c, hc, hcc⟩ := ih h
        exact ⟨c, List.mem_cons_of_mem _ hc, hcc⟩

theorem chainsLoop_append_error (objects : List (String × IrTypes.Object))
    (pre : List (List ChainItem)) (c0 : List ChainItem)
    (post : List (List ChainItem)) (e : VErr)
    (hpre : ∀ c ∈ pre, checkChain objects c = .ok ())
    (h : checkChain objects c0 = .error e) :
    chainsLoop objects (pre ++ c0 :: post) = .error e := by
  induction pre with
  | nil =>
      simp only [List.nil_append, chainsLoop, h]
  | cons p rest ih =>
      have hp := hpre p (List.mem_cons_self p rest)
      simp only [List.cons_append, chainsLoop, hp]
      exact ih fun c hc => hpre c (List.mem_cons_of_mem _ hc)

theorem checkDupKeys_ok_of_nodup (keys : List String) (h : keys.Nodup) :
    checkDupKeys keys = .ok () := by
  simp only [checkDupKeys]
  rw [if_neg]
  simp [List.dedup_eq_self.mpr h]

theorem checkDupKeys_error_shape (keys : List String) (e : VErr)
    (h : checkDupKeys keys = .error e) : e = dupIdsErr := by
  simp only [checkDupKeys] at h
  by_cases h1 : keys.dedup.length ≠ keys.length
  · rw [if_pos h1] at h
    exact (Except.error.inj h).symm
  · rw [if_neg h1] at h
    exact absurd h (by simp)

theorem validate_eq_breaker_of_pre_ok (ir : IrTypes.IR)
    (h1 : checkDupKeys (ir.objects.map Prod.fst) = .ok ())
    (h2 : chainsLoop ir.objects ir.series = .ok ()) :
    validate ir = breakerCheck ir.objects ir.series := by
  simp only [validate, h1, h2]

theorem validate_error_cases (ir : IrTypes.IR) (e : VErr)
    (h : validate ir = .error e) :
    checkDupKeys (ir.objects.map Prod.fst) = .error e ∨
      chainsLoop ir.objects ir.series = .error e ∨
      (chainsLoop ir.objects ir.series = .ok () ∧
        breakerCheck ir.objects ir.series = .error e) := by
  simp only [validate] at h
  rcases h1 : checkDupKeys (ir.objects.map Prod.fst) with e1 | u
  · simp only [h1] at h
    rw [show e = e1 from by simpa using h.symm]
    exact Or.inl rfl
  · cases u
    simp only [h1] at h
    rcases h2 : chainsLoop ir.objects ir.series with e2 | u
    · simp only [h2] at h
      rw [show e = e2 from by simpa using h.symm]
      exact Or.inr (Or.inl rfl)
    · cases u
      simp only [h2] at h
      exact Or.inr (Or.inr ⟨rfl, h⟩)

theorem breakerCheck_error_shape (objects : List (String × IrTypes.Object))
    (series : List (List ChainItem)) (e : VErr)
    (h : breakerCheck objects series = .error e) : ∃ b, e = brkUnusedErr b := by
  simp only [breakerCheck] at h
  rcases h1 : ((objects.filter fun p => decide (p.2.type = "BREAKER")).map
      Prod.fst).find? (fun b => decide (b ∉ chainIds series)) with _ | b
  · simp only [h1] at h
    exact Except.noConfusion h
  · simp only [h1] at h
    exact ⟨b, by simpa using h.symm⟩

theorem breakerCheck_error_iff (objects : List (String × IrTypes.Object))
    (series : List (List ChainItem)) :
    errCode? (breakerCheck objects series) = some "E.PROT.BRK_UNUSED" ↔
      ∃ p ∈ objects, p.2.type = "BREAKER" ∧ p.1 ∉ chainIds series := by
  rcases h1 : ((objects.filter fun p => decide (p.2.type = "BREAKER")).map
      Prod.fst).find? (fun b => decide (b ∉ chainIds series)) with _ | b
  · have h2 : breakerCheck objects series = .ok () := by
      simp only [breakerCheck, h1]
    rw [h2, List.find?_eq_none] at *
    constructor
    · intro h3
      have h5 : errCode? (Except.ok ()) = none := rfl
      rw [h5] at h3
      exact Option.noConfusion h3
    · rintro ⟨p, hp, htype, hnot⟩
      have h3 : p.1 ∈ (objects.filter fun p => decide (p.2.type = "BREAKER")).map
          Prod.fst := by
        apply List.mem_map.mpr
        refine ⟨p, ?_, rfl⟩
        rw [List.mem_filter]
        exact ⟨hp, by simp [htype]⟩
      have h4 := h1 p.1 h3
      simp only [decide_eq_true_eq] at h4
      exact absurd hnot h4
  · have hbc : breakerCheck objects series = .error (brkUnusedErr b) := by
      simp only [breakerCheck, h1]
    rw [hbc]
    have h2 : b ∈ (objects.filter fun p => decide (p.2.type = "BREAKER")).map
        Prod.fst := List.mem_of_find?_eq_some h1
    have h3 := List.find?_some h1
    simp only [decide_eq_true_eq] at h3
    rcases List.mem_map.mp h2 with ⟨p, hp2, hp3⟩
    rw [List.mem_filter] at hp2
    constructor
    · intro _
      refine ⟨p, hp2.1, by simpa using hp2.2, ?_⟩
      rw [hp3]
      exact h3
    · intro _
      rfl

theorem errCode?_some_inv (r : Except VErr Unit) (c : String)
    (h : errCode? r = some c) : ∃ m, r = .error (.dsl c m) := by
  match r with
  | .ok u => exact absurd h (by simp [errCode?])
  | .error (.dsl c2 m) =>
      refine ⟨m, ?_⟩
      have h2 : c2 = c := by simpa [errCode?] using h
      rw [h2]
  | .error (.pyTypeError m) => exact absurd h (by simp [errCode?])

theorem validate_error_of_chains (ir : IrTypes.IR) (e : VErr)
    (h1 : checkDupKeys (ir.objects.map Prod.fst) = .ok ())
    (h2 : chainsLoop ir.objects ir.series = .error e) : validate ir = .error e := by
  simp only [validate, h1, h2]

theorem checkPair_error_inv (objects : List (String × IrTypes.Object))
    (a b : ChainItem) (e : VErr) (h : checkPair objects a b = .error e) :
    ∃ sa sb oa ob va vb, a = .id sa ∧ b = .id sb ∧
      dictGet objects sa = some oa ∧ dictGet objects sb = some ob ∧
      ¬(oa.type = "TRANSFORMER" ∨ oa.type = "BUS" ∨
        ob.type = "TRANSFORMER" ∨ ob.type = "BUS") ∧
      dictGet oa.attrs "kv" = some va ∧ dictGet ob.attrs "kv" = some vb ∧
      ((∃ kva kvb, toNum? va = some kva ∧ toNum? vb = some kvb ∧
          |kva - kvb| > (15 / 100 : ℚ) * max kva kvb ∧ e = voltErr sa sb) ∨
        ((toNum? va = none ∨ toNum? vb = none) ∧
          e = .pyTypeError "unsupported operand type for subtraction")) := by
  match a, b with
  | .id sa, .term t => exact absurd h (by simp [checkPair])
  | .term t, .id sb => exact absurd h (by simp [checkPair])
  | .term t, .term t2 => exact absurd h (by simp [checkPair])
  | .id sa, .id sb =>
      simp only [checkPair] at h
      rcases h1 : dictGet objects sa with _ | oa
      · simp only [h1] at h
        exact Except.noConfusion h
      · rcases h2 : dictGet objects sb with _ | ob
        · simp only [h1, h2] at h
          exact Except.noConfusion h
        · simp only [h1, h2] at h
          by_cases h3 : oa.type = "TRANSFORMER" ∨ oa.type = "BUS" ∨
              ob.type = "TRANSFORMER" ∨ ob.type = "BUS"
          · rw [if_pos h3] at h
            exact Except.noConfusion h
          · rw [if_neg h3] at h
            rcases h4 : dictGet oa.attrs "kv" with _ | va
            · simp only [h4] at h
              exact Except.noConfusion h
            · rcases h5 : dictGet ob.attrs "kv" with _ | vb
              · simp only [h4, h5] at h
                exact Except.noConfusion h
              · simp only [h4, h5] at h
                refine ⟨sa, sb, oa, ob, va, vb, rfl, rfl, h1, h2, h3, h4, h5, ?_⟩
                rcases h6 : toNum? va with _ | kva
                · simp only [h6] at h
                  exact Or.inr ⟨Or.inl rfl, by simpa using h.symm⟩
                · rcases h7 : toNum? vb with _ | kvb
                  · simp only [h6, h7] at h
                    exact Or.inr ⟨Or.inr rfl, by simpa using h.symm⟩
                  · simp only [h6, h7] at h
                    by_cases h8 : |kva - kvb| > (15 / 100 : ℚ) * max kva kvb
                    · rw [if_pos h8] at h
                      exact Or.inl ⟨kva, kvb, rfl, rfl, h8, by simpa using h.symm⟩
                    · rw [if_neg h8] at h
                      exact Except.noConfusion h

theorem checkPair_error_construct (objects : List (String × IrTypes.Object))
    (sa sb : String) (oa ob : IrTypes.Object) (va vb : Value) (kva kvb : ℚ)
    (h1 : dictGet objects sa = some oa) (h2 : dictGet objects sb = some ob)
    (h3 : ¬(oa.type = "TRANSFORMER" ∨ oa.type = "BUS" ∨
      ob.type = "TRANSFORMER" ∨ ob.type = "BUS"))
    (h4 : dictGet oa.attrs "kv" = some va) (h5 : toNum? va = some kva)
    (h6 : dictGet ob.attrs "kv" = some vb) (h7 : toNum? vb = some kvb)
    (h8 : |kva - kvb| > (15 / 100 : ℚ) * max kva kvb) :
    checkPair objects (.id sa) (.id sb) = .error (voltErr sa sb) := by
  simp only [checkPair, h1, h2, h4, h5, h6, h7]
  rw [if_neg h3, if_pos h8]

/-- C9: for every IR whose object table is a mapping keyed by id (so its key
list is duplicate-free, as for every Python dict), `validate` never raises
`E.ID.DUP`: the rule compares the cardinality of the key set with the table
size, these agree for every mapping, and no other rule carries that code. -/
theorem claim_c9_no_dup_error (ir : IrTypes.IR)
    (h : (ir.objects.map Prod.fst).Nodup) :
    errCode? (validate ir) ≠ some "E.ID.DUP" := by
  intro hcontra
  obtain ⟨m, hm⟩ := errCode?_some_inv _ _ hcontra
  rcases validate_error_cases ir _ hm with h1 | h2 | h3
  · have hok := checkDupKeys_ok_of_nodup _ h
    rw [hok] at h1
    exact Except.noConfusion h1
  · obtain ⟨c, _, hcc⟩ := chainsLoop_error_exists _ _ _ h2
    rcases checkChain_error_cases _ _ _ hcc with ⟨_, he⟩ | he | ⟨_, he⟩
    · simp only [emptyChainErr] at he
      injection he with hcode _
      exact absurd hcode (by decide)
    · have h4 := (endpointLoop_error_exists _ _ _ _ he).1
      simp only [endpointErr] at h4
      injection h4 with hcode _
      exact absurd hcode (by decide)
    · obtain ⟨_, a, b, _, _, hp⟩ := voltLoop_error_exists _ _ _ he
      obtain ⟨sa, sb, _, _, _, _, _, _, _, _, _, _, _, hshape⟩ :=
        checkPair_error_inv _ _ _ _ hp
      rcases hshape with ⟨_, _, _, _, _, hv⟩ | ⟨_, hv⟩
      · simp only [voltErr] at hv
        injection hv with hcode _
        exact absurd hcode (by decide)
      · exact VErr.noConfusion hv
  · obtain ⟨b, hb⟩ := breakerCheck_error_shape _ _ _ h3.2
    simp only [brkUnusedErr] at hb
    injection hb with hcode _
    exact absurd hcode (by decide)

/-- Witness for C9 at a concrete one-object IR. -/
theorem claim_c9_witness : errCode? (validate exC9w) ≠ some "E.ID.DUP" :=
  claim_c9_no_dup_error exC9w (by decide)

/-- C5: when the id-uniqueness rule and every per-chain rule pass,
`validate` raises `E.PROT.BRK_UNUSED` exactly when some object of kind
BREAKER has an id that appears as a plain-identifier element in no chain;
the check runs once, after the per-chain checks, over the whole IR. -/
theorem claim_c5_breaker_unused (ir : IrTypes.IR)
    (h1 : checkDupKeys (ir.objects.map Prod.fst) = .ok ())
    (h2 : ∀ c ∈ ir.series, checkChain ir.objects c = .ok ()) :
    errCode? (validate ir) = some "E.PROT.BRK_UNUSED" ↔
      ∃ p ∈ ir.objects, p.2.type = "BREAKER" ∧ p.1 ∉ chainIds ir.series := by
  have h3 : chainsLoop ir.objects ir.series = .ok () := (chainsLoop_ok_iff _ _).mpr h2
  rw [validate_eq_breaker_of_pre_ok ir h1 h3]
  exact breakerCheck_error_iff ir.objects ir.series

/-- Witness for C5: a BREAKER declared but referenced in no chain. -/
theorem claim_c5_witness : errCode? (validate exC5w) = some "E.PROT.BRK_UNUSED" :=
  (claim_c5_breaker_unused exC5w (by decide) (by decide)).mpr
    ⟨("bk", ⟨"bk", "BREAKER", [("id", .str "bk"), ("kv", .num 138)]⟩),
      by decide, by decide, by decide⟩

theorem validateSt_eq (ir : IrTypes.IR) : validateSt ir = (validate ir, ir) := by
  simp only [validateSt, validate]
  rcases h1 : checkDupKeys (ir.objects.map Prod.fst) with e | u
  · rfl
  · cases u
    rcases h2 : chainsLoop ir.objects ir.series with e | u
    · rfl
    · cases u
      rfl

/-- C8: `validate` is read-only.  Threading the IR state through the
validator explicitly, the final state equals the initial one — object
table, chain list, page table, style and meta maps included — whether the
run returns normally or with an error, and the result agrees with the pure
`validate`. -/
theorem claim_c8_validate_readonly (ir : IrTypes.IR) :
    (validateSt ir).2.objects = ir.objects ∧ (validateSt ir).2.series = ir.series ∧
      (validateSt ir).2.pages = ir.pages ∧ (validateSt ir).2.style = ir.style ∧
      (validateSt ir).2.meta = ir.meta ∧ (validateSt ir).1 = validate ir := by
  rw [validateSt_eq]
  exact ⟨rfl, rfl, rfl, rfl, rfl, rfl⟩

/-- C3 counterexample: the claimed equivalence fails as stated.  In this IR
the second chain carries a terminal at a non-edge index, yet `validate`
raises `E.CONNECT.EMPTY` for the empty first chain, not
`E.CONNECT.ENDPOINT` — the validator is fail-fast, so an earlier rule
preempts the endpoint rule. -/
theorem claim_c3_counterexample :
    (∃ ch ∈ exC3bad.series, ∃ (j : Nat) (t : TermV), ch[j]? = some (ChainItem.term t) ∧
        j ≠ 0 ∧ j ≠ ch.length - 1) ∧
      errCode? (validate exC3bad) ≠ some "E.CONNECT.ENDPOINT" := by
  constructor
  · exact ⟨[.id "p", .term .openEnd, .id "q"], by decide, 1, .openEnd, rfl,
      by decide, by decide⟩
  · decide

/-- C3 (amended): `validate` raises `E.CONNECT.ENDPOINT` only if some chain
has a terminal at a non-edge index — so terminals at the first or last
position alone never trigger it — and conversely it raises
`E.CONNECT.ENDPOINT` whenever some chain has such a terminal and every
chain listed before that chain passes its per-chain checks; an earlier
failing chain preempts with its own error. -/
theorem claim_c3_amended (ir : IrTypes.IR)
    (hkeys : (ir.objects.map Prod.fst).Nodup) :
    (errCode? (validate ir) = some "E.CONNECT.ENDPOINT" →
      ∃ ch ∈ ir.series, ∃ (j : Nat) (t : TermV), ch[j]? = some (ChainItem.term t) ∧
        j ≠ 0 ∧ j ≠ ch.length - 1) ∧
    (∀ pre ch post, ir.series = pre ++ ch :: post →
      (∀ c2 ∈ pre, checkChain ir.objects c2 = .ok ()) →
      (∃ (j : Nat) (t : TermV), ch[j]? = some (ChainItem.term t) ∧ j ≠ 0 ∧
        j ≠ ch.length - 1) →
      errCode? (validate ir) = some "E.CONNECT.ENDPOINT") := by
  constructor
  · intro h
    obtain ⟨m, hm⟩ := errCode?_some_inv _ _ h
    rcases validate_error_cases ir _ hm with h1 | h2 | h3
    · have hs := checkDupKeys_error_shape _ _ h1
      simp only [dupIdsErr] at hs
      injection hs with hcode _
      exact absurd hcode (by decide)
    · obtain ⟨c, hc, hcc⟩ := chainsLoop_error_exists _ _ _ h2
      rcases checkChain_error_cases _ _ _ hcc with ⟨_, he⟩ | he | ⟨_, he⟩
      · simp only [emptyChainErr] at he
        injection he with hcode _
        exact absurd hcode (by decide)
      · obtain ⟨_, j, t, hj, hcond⟩ := endpointLoop_error_exists _ _ _ _ he
        simp only [Nat.zero_add, not_or] at hcond
        exact ⟨c, hc, j, t, hj, hcond.1, hcond.2⟩
      · obtain ⟨_, a, b, _, _, hp⟩ := voltLoop_error_exists _ _ _ he
        obtain ⟨sa, sb, _, _, _, _, _, _, _, _, _, _, _, hshape⟩ :=
          checkPair_error_inv _ _ _ _ hp
        rcases hshape with ⟨_, _, _, _, _, hv⟩ | ⟨_, hv⟩
        · simp only [voltErr] at hv
          injection hv with hcode _
          exact absurd hcode (by decide)
        · exact VErr.noConfusion hv
    · obtain ⟨b, hb⟩ := breakerCheck_error_shape _ _ _ h3.2
      simp only [brkUnusedErr] at hb
      injection hb with hcode _
      exact absurd hcode (by decide)
  · rintro pre c post hser hpre ⟨j, t, hj, hj0, hjn⟩
    have hne : c ≠ [] := by
      intro h0
      rw [h0] at hj
      simp at hj
    have hep : endpointLoop c.length 0 c = .error endpointErr :=
      endpointLoop_error_of_exists c.length 0 c j t hj
        (by simpa using not_or.mpr ⟨hj0, hjn⟩)
    have hcc : checkChain ir.objects c = .error endpointErr :=
      checkChain_error_of_endpoint _ _ _ hne hep
    have hch : chainsLoop ir.objects ir.series = .error endpointErr := by
      rw [hser]
      exact chainsLoop_append_error _ _ _ _ _ hpre hcc
    have hv := validate_error_of_chains ir _ (checkDupKeys_ok_of_nodup _ hkeys) hch
    rw [hv]
    rfl

/-- Witness for the amended C3: a lone chain with a mid-position terminal
makes `validate` raise `E.CONNECT.ENDPOINT`. -/
theorem claim_c3_amended_witness :
    errCode? (validate exC3w) = some "E.CONNECT.ENDPOINT" :=
  (claim_c3_amended exC3w (by decide)).2 [] [.id "p", .term .openEnd, .id "q"] []
    rfl (by intro c2 hc2; exact absurd hc2 (List.not_mem_nil c2))
    ⟨1, .openEnd, rfl, by decide, by decide⟩

/-- C2 counterexample: the claimed per-pair equivalence fails as stated.
The first chain pairs two LINE objects at equal voltage, so for that
adjacent pair the claim says the error must not be raised; yet `validate`
raises `E.VOLT.MISMATCH`, because another chain holds a pair above the
tolerance — the raise is global, not per pair. -/
theorem claim_c2_counterexample :
    (∃ oa ob, dictGet exC2bad.objects "a" = some oa ∧
      dictGet exC2bad.objects "b" = some ob ∧
      oa.type ≠ "TRANSFORMER" ∧ oa.type ≠ "BUS" ∧
      ob.type ≠ "TRANSFORMER" ∧ ob.type ≠ "BUS" ∧
      dictGet oa.attrs "kv" = some (.num 100) ∧
      dictGet ob.attrs "kv" = some (.num 100)) ∧
    exC2bad.series[0]? = some [ChainItem.id "a", ChainItem.id "b"] ∧
    ¬(|(100 : ℚ) - 100| > (15 / 100 : ℚ) * max 100 100) ∧
    errCode? (validate exC2bad) = some "E.VOLT.MISMATCH" := by
  refine ⟨⟨⟨"a", "LINE", [("id", .str "a"), ("kv", .num 100)]⟩,
    ⟨"b", "LINE", [("id", .str "b"), ("kv", .num 100)]⟩,
    rfl, rfl, by decide, by decide, by decide, by decide, rfl, rfl⟩, rfl,
    by norm_num, ?_⟩
  have hcp2 : checkPair exC2bad.objects (.id "c") (.id "d") =
      .error (voltErr "c" "d") := by
    show (if |(100 : ℚ) - 200| > (15 / 100 : ℚ) * max 100 200 then
        Except.error (voltErr "c" "d") else Except.ok ()) =
      Except.error (voltErr "c" "d")
    rw [if_pos (by norm_num)]
  have hchain2 : checkChain exC2bad.objects [ChainItem.id "c", ChainItem.id "d"] =
      .error (voltErr "c" "d") := by
    apply checkChain_error_of_volt _ _ _ (by decide) (by decide)
    simp only [voltLoop, hcp2]
  have hchain1 : checkChain exC2bad.objects [ChainItem.id "a", ChainItem.id "b"] =
      .ok () := by
    rw [checkChain_ok_iff]
    refine ⟨by decide, by decide, ?_⟩
    have hcp1 : checkPair exC2bad.objects (.id "a") (.id "b") = .ok () := by
      show (if |(100 : ℚ) - 100| > (15 / 100 : ℚ) * max 100 100 then
          Except.error (voltErr "a" "b") else Except.ok ()) = Except.ok ()
      rw [if_neg (by norm_num)]
    simp only [voltLoop, hcp1]
  have hch : chainsLoop exC2bad.objects exC2bad.series =
      .error (voltErr "c" "d") := by
    show chainsLoop exC2bad.objects
      [[ChainItem.id "a", ChainItem.id "b"], [ChainItem.id "c", ChainItem.id "d"]] =
      .error (voltErr "c" "d")
    simp only [chainsLoop, hchain1, hchain2]
  have hv := validate_error_of_chains exC2bad _
    (checkDupKeys_ok_of_nodup _ (by decide)) hch
  rw [hv]
  rfl

/-- C2 (amended): when the earlier rules pass everywhere — unique ids, no
empty chain, terminals only at chain edges — and every stored `kv`
attribute is numeric, `validate` raises `E.VOLT.MISMATCH` exactly when some
chain has an adjacent pair of identifier elements whose objects both exist,
neither of kind BUS or TRANSFORMER, both carrying `kv`, with
`|kva - kvb| > 0.15 * max(kva, kvb)`; a pair at or under the threshold
never triggers the error by itself. -/
theorem claim_c2_amended (ir : IrTypes.IR)
    (hkeys : (ir.objects.map Prod.fst).Nodup)
    (hnonempty : ∀ ch ∈ ir.series, ch ≠ [])
    (hterm : ∀ ch ∈ ir.series, endpointLoop ch.length 0 ch = .ok ())
    (hkv : ∀ p ∈ ir.objects,
      Option.all (fun v => (toNum? v).isSome) (dictGet p.2.attrs "kv") = true) :
    errCode? (validate ir) = some "E.VOLT.MISMATCH" ↔
      ∃ ch ∈ ir.series, ∃ (j : Nat) (sa sb : String),
        ch[j]? = some (ChainItem.id sa) ∧ ch[j + 1]? = some (ChainItem.id sb) ∧
        ∃ oa ob, dictGet ir.objects sa = some oa ∧
          dictGet ir.objects sb = some ob ∧
          oa.type ≠ "TRANSFORMER" ∧ oa.type ≠ "BUS" ∧
          ob.type ≠ "TRANSFORMER" ∧ ob.type ≠ "BUS" ∧
          ∃ va vb kva kvb, dictGet oa.attrs "kv" = some va ∧
            toNum? va = some kva ∧ dictGet ob.attrs "kv" = some vb ∧
            toNum? vb = some kvb ∧
            |kva - kvb| > (15 / 100 : ℚ) * max kva kvb := by
  constructor
  · intro h
    obtain ⟨m, hm⟩ := errCode?_some_inv _ _ h
    rcases validate_error_cases ir _ hm with h1 | h2 | h3
    · have hs := checkDupKeys_error_shape _ _ h1
      simp only [dupIdsErr] at hs
      injection hs with hcode _
      exact absurd hcode (by decide)
    · obtain ⟨ch, hc, hcc⟩ := chainsLoop_error_exists _ _ _ h2
      rcases checkChain_error_cases _ _ _ hcc with ⟨_, he⟩ | he | ⟨_, he⟩
      · simp only [emptyChainErr] at he
        injection he with hcode _
        exact absurd hcode (by decide)
      · rw [hterm ch hc] at he
        exact Except.noConfusion he
      · obtain ⟨j, a, b, ha, hb, hp⟩ := voltLoop_error_exists _ _ _ he
        obtain ⟨sa, sb, oa, ob, va, vb, haid, hbid, hoa, hob, htype, hva, hvb,
          hshape⟩ := checkPair_error_inv _ _ _ _ hp
        rcases hshape with ⟨kva, kvb, hnva, hnvb, hthr, _⟩ | ⟨_, hv⟩
        · simp only [not_or] at htype
          rw [haid] at ha
          rw [hbid] at hb
          exact ⟨ch, hc, j, sa, sb, ha, hb, oa, ob, hoa, hob, htype.1,
            htype.2.1, htype.2.2.1, htype.2.2.2, va, vb, kva, kvb, hva, hnva,
            hvb, hnvb, hthr⟩
        · exact VErr.noConfusion hv
    · obtain ⟨b, hb⟩ := breakerCheck_error_shape _ _ _ h3.2
      simp only [brkUnusedErr] at hb
      injection hb with hcode _
      exact absurd hcode (by decide)
  · rintro ⟨ch, hc, j, sa, sb, ha, hb, oa, ob, hoa, hob, ht1, ht2, ht3, ht4,
      va, vb, kva, kvb, hva, hnva, hvb, hnvb, hthr⟩
    have hpair : checkPair ir.objects (.id sa) (.id sb) = .error (voltErr sa sb) := by
      refine checkPair_error_construct ir.objects sa sb oa ob va vb kva kvb hoa hob
        ?_ hva hnva hvb hnvb hthr
      rintro (h5 | h5 | h5 | h5)
      exacts [ht1 h5, ht2 h5, ht3 h5, ht4 h5]
    have hnok : voltLoop ir.objects ch ≠ .ok () := by
      intro hok
      have h6 := (voltLoop_ok_iff _ _).mp hok j (.id sa) (.id sb) ha hb
      rw [hpair] at h6
      exact Except.noConfusion h6
    have hcnok : chainsLoop ir.objects ir.series ≠ .ok () := by
      intro hok
      have hcc := (chainsLoop_ok_iff _ _).mp hok ch hc
      exact hnok ((checkChain_ok_iff _ _).mp hcc).2.2
    rcases hres : chainsLoop ir.objects ir.series with e | u
    · obtain ⟨c2, hc2, hcc2⟩ := chainsLoop_error_exists _ _ _ hres
      rcases checkChain_error_cases _ _ _ hcc2 with ⟨hempty, _⟩ | hep | ⟨_, hvl⟩
      · exact absurd hempty (hnonempty c2 hc2)
      · rw [hterm c2 hc2] at hep
        exact Except.noConfusion hep
      · obtain ⟨j2, a2, b2, _, _, hp2⟩ := voltLoop_error_exists _ _ _ hvl
        obtain ⟨sa2, sb2, oa2, ob2, va2, vb2, _, _, hoa2, hob2, _, hva2, hvb2,
          hshape2⟩ := checkPair_error_inv _ _ _ _ hp2
        rcases hshape2 with ⟨_, _, _, _, _, hve⟩ | ⟨hnone, _⟩
        · have hv := validate_error_of_chains ir e
            (checkDupKeys_ok_of_nodup _ hkeys) hres
          rw [hv, hve]
          rfl
        · rcases hnone with hn | hn
          · have h7 := hkv (sa2, oa2) (dictGet_mem _ _ _ hoa2)
            rw [hva2] at h7
            simp only [Option.all] at h7
            rw [hn] at h7
            exact absurd h7 (by decide)
          · have h7 := hkv (sb2, ob2) (dictGet_mem _ _ _ hob2)
            rw [hvb2] at h7
            simp only [Option.all] at h7
            rw [hn] at h7
            exact absurd h7 (by decide)
    · cases u
      exact absurd hres hcnok

/-- Witness for the amended C2: two LINE objects at 100 and 200 kV joined
by a chain make `validate` raise `E.VOLT.MISMATCH`. -/
theorem claim_c2_amended_witness :
    errCode? (validate exC2w) = some "E.VOLT.MISMATCH" :=
  (claim_c2_amended exC2w (by decide) (by decide) (by decide) (by decide)).mpr
    ⟨[.id "x", .id "y"], by decide, 0, "x", "y", rfl, rfl,
      ⟨"x", "LINE", [("id", .str "x"), ("kv", .num 100)]⟩,
      ⟨"y", "LINE", [("id", .str "y"), ("kv", .num 200)]⟩,
      rfl, rfl, by decide, by decide, by decide, by decide,
      .num 100, .num 200, 100, 200, rfl, rfl, rfl, rfl, by norm_num⟩

/-- C6: `_merge_front` gives precedence to the explicit mandatory
attributes: every key bound by the main dict keeps its main value, keys
present only in the extension dict fall through to it, and an absent or
empty extension leaves the main dict unchanged. -/
theorem claim_c6_merge_front (main extra : List (String × Value))
    (hm : (main.map Prod.fst).Nodup) :
    (∀ k v, dictGet main k = some v →
      dictGet (merge_front main (some extra)) k = some v) ∧
    (∀ k, dictGet main k = none →
      dictGet (merge_front main (some extra)) k = dictGet extra k) ∧
    merge_front main none = main ∧
    (extra = [] → merge_front main (some extra) = main) := by
  refine ⟨?_, ?_, rfl, ?_⟩
  · intro k v h
    exact dictGet_merge_front_of_main main (some extra) k v hm h
  · intro k h
    exact dictGet_merge_front_of_main_none main extra k h
  · intro h
    rw [h]
    rfl

/-- Witness for C6 at concrete colliding dicts: the mandatory `kv` wins and
the extension-only key `color` is contributed. -/
theorem claim_c6_witness :
    dictGet (merge_front exC6M (some exC6E)) "kv" = some (Value.num 138) ∧
    dictGet (merge_front exC6M (some exC6E)) "color" = some (Value.str "red") := by
  constructor
  · exact (claim_c6_merge_front exC6M exC6E (by decide)).1 "kv" (Value.num 138) rfl
  · exact ((claim_c6_merge_front exC6M exC6E (by decide)).2.1 "color" rfl).trans rfl

theorem runStmt_add_eq (ir : DslParser.IR) (typ id : String)
    (rest : List (String × Value)) (extra : Option (List (String × Value)))
    (loc : Nat × Nat) (hrest : ∀ q ∈ rest, q.1 ≠ "id") (hid : id ≠ "") :
    runStmt ir (.addStmt typ id rest extra loc) =
      if id ∈ ir.objects.map Prod.fst then .error (.dupId id loc.1)
      else .ok { ir with objects := ir.objects ++
        [(id, ⟨id, typ, merge_front (mandKvs id rest) extra, loc⟩)] } := by
  simp only [runStmt, add_stmt, dictGet_merged_id id rest extra hrest]
  rw [if_neg hid]

theorem runStmts_error_dup (stmts : List Stmt) :
    ∀ (ir : DslParser.IR), (∀ s ∈ stmts, idOk s) → (∀ s ∈ stmts, restOk s) →
      ∀ e, runStmts ir stmts = .error e → ∃ oid line, e = .dupId oid line := by
  induction stmts with
  | nil =>
      intro ir _ _ e h
      exact absurd h (by simp [runStmts])
  | cons s rest ih =>
      intro ir hids hrest e h
      simp only [runStmts] at h
      rcases hr : runStmt ir s with e2 | ir2
      · simp only [hr] at h
        match s with
        | .addStmt typ id r extra loc =>
            rw [runStmt_add_eq ir typ id r extra loc
              (hrest _ (List.mem_cons_self _ _))
              (hids _ (List.mem_cons_self _ _))] at hr
            by_cases h2 : id ∈ ir.objects.map Prod.fst
            · rw [if_pos h2] at hr
              refine ⟨id, loc.1, ?_⟩
              exact ((Except.error.inj hr).trans (Except.error.inj h)).symm
            · rw [if_neg h2] at hr
              exact Except.noConfusion hr
        | .connectStmt items loc =>
            simp only [runStmt, connect_stmt] at hr
            exact Except.noConfusion hr
        | .otherStmt =>
            simp only [runStmt] at hr
            exact Except.noConfusion hr
      · simp only [hr] at h
        exact ih ir2 (fun s2 hs2 => hids s2 (List.mem_cons_of_mem _ hs2))
          (fun s2 hs2 => hrest s2 (List.mem_cons_of_mem _ hs2)) e h

theorem runStmts_ok_inv (stmts : List Stmt) :
    ∀ (ir ir2 : DslParser.IR), (∀ s ∈ stmts, idOk s) → (∀ s ∈ stmts, restOk s) →
      runStmts ir stmts = .ok ir2 →
      (addIds stmts).Nodup ∧ ∀ x ∈ addIds stmts, x ∉ ir.objects.map Prod.fst := by
  induction stmts with
  | nil =>
      intro ir ir2 _ _ _
      exact ⟨List.nodup_nil, by simp [addIds]⟩
  | cons s rest ih =>
      intro ir ir2 hids hrest h
      simp only [runStmts] at h
      rcases hr : runStmt ir s with e2 | ir3
      · simp only [hr] at h
        exact Except.noConfusion h
      · simp only [hr] at h
        match s with
        | .addStmt typ id r extra loc =>
            rw [runStmt_add_eq ir typ id r extra loc
              (hrest _ (List.mem_cons_self _ _))
              (hids _ (List.mem_cons_self _ _))] at hr
            by_cases h2 : id ∈ ir.objects.map Prod.fst
            · rw [if_pos h2] at hr
              exact Except.noConfusion hr
            · rw [if_neg h2] at hr
              have h3 := Except.ok.inj hr
              obtain ⟨h4, h5⟩ := ih ir3 ir2
                (fun s2 hs2 => hids s2 (List.mem_cons_of_mem _ hs2))
                (fun s2 hs2 => hrest s2 (List.mem_cons_of_mem _ hs2)) h
              have hkeys3 : ir3.objects.map Prod.fst =
                  ir.objects.map Prod.fst ++ [id] := by
                rw [← h3]
                simp
              have haddids : addIds (Stmt.addStmt typ id r extra loc :: rest) =
                  id :: addIds rest := rfl
              rw [haddids]
              constructor
              · rw [List.nodup_cons]
                refine ⟨fun hmem => ?_, h4⟩
                have h6 := h5 id hmem
                rw [hkeys3] at h6
                simp at h6
              · intro x hx
                rcases List.mem_cons.mp hx with h7 | h7
                · rw [h7]
                  exact h2
                · have h6 := h5 x h7
                  rw [hkeys3] at h6
                  intro h8
                  exact h6 (List.mem_append_left _ h8)
        | .connectStmt items loc =>
            simp only [runStmt, connect_stmt] at hr
            have h3 := Except.ok.inj hr
            obtain ⟨h4, h5⟩ := ih ir3 ir2
              (fun s2 hs2 => hids s2 (List.mem_cons_of_mem _ hs2))
              (fun s2 hs2 => hrest s2 (List.mem_cons_of_mem _ hs2)) h
            have haddids : addIds (Stmt.connectStmt items loc :: rest) =
                addIds rest := rfl
            rw [haddids]
            refine ⟨h4, fun x hx => ?_⟩
            have h6 := h5 x hx
            rw [← h3] at h6
            exact h6
        | .otherStmt =>
            simp only [runStmt] at hr
            have h3 := Except.ok.inj hr
            obtain ⟨h4, h5⟩ := ih ir3 ir2
              (fun s2 hs2 => hids s2 (List.mem_cons_of_mem _ hs2))
              (fun s2 hs2 => hrest s2 (List.mem_cons_of_mem _ hs2)) h
            have haddids : addIds (Stmt.otherStmt :: rest) = addIds rest := rfl
            rw [haddids]
            refine ⟨h4, fun x hx => ?_⟩
            have h6 := h5 x hx
            rw [← h3] at h6
            exact h6

/-- C4: for every statement list containing two `ADD_*` statements with the
same id — whatever their kinds — the transformation fails with a
duplicate-id error, an error of the transform family `TErr`, raised before
a `validate` call could see an IR.  The hypotheses record two
grammar-guaranteed facts: every add id is a non-empty `ID` token, and the
fixed mandatory key lists of the handlers never repeat `id`. -/
theorem claim_c4_duplicate_id (stmts : List Stmt)
    (hids : ∀ s ∈ stmts, idOk s) (hrest : ∀ s ∈ stmts, restOk s)
    (hdup : ¬ (addIds stmts).Nodup) :
    ∃ oid line, parse stmts = .error (.dupId oid line) := by
  rcases hres : parse stmts with e | ir
  · obtain ⟨oid, line, he⟩ := runStmts_error_dup stmts DslParser.emptyIR hids hrest e hres
    refine ⟨oid, line, ?_⟩
    rw [← he]
  · exact absurd (runStmts_ok_inv stmts DslParser.emptyIR ir hids hrest hres).1 hdup

/-- Witness for C4: `ADD_BUS id=b1` followed by `ADD_BREAKER id=b1`. -/
theorem claim_c4_witness : ∃ oid line, parse exC4Stmts = .error (.dupId oid line) :=
  claim_c4_duplicate_id exC4Stmts (by decide) (by decide) (by decide)

theorem add_stmt_ok_inv (ir : DslParser.IR) (typ : String)
    (kvs : List (String × Value)) (loc : Nat × Nat) (ir2 : DslParser.IR)
    (h : add_stmt ir typ kvs loc = .ok ir2) :
    ∃ oid, dictGet kvs "id" = some (Value.str oid) ∧ oid ≠ "" ∧
      ir2.objects = ir.objects ++ [(oid, ⟨oid, typ, kvs, loc⟩)] := by
  simp only [add_stmt] at h
  rcases hg : dictGet kvs "id" with _ | v
  · simp only [hg] at h
    exact Except.noConfusion h
  · match v with
    | Value.num q =>
        simp only [hg] at h
        exact Except.noConfusion h
    | Value.boolV b =>
        simp only [hg] at h
        exact Except.noConfusion h
    | Value.str oid =>
        simp only [hg] at h
        by_cases h1 : oid = ""
        · rw [if_pos h1] at h
          exact Except.noConfusion h
        · rw [if_neg h1] at h
          by_cases h2 : oid ∈ ir.objects.map Prod.fst
          · rw [if_pos h2] at h
            exact Except.noConfusion h
          · rw [if_neg h2] at h
            refine ⟨oid, rfl, h1, ?_⟩
            rw [← Except.ok.inj h]

theorem runStmts_objects_inv (stmts : List Stmt) :
    ∀ (ir ir2 : DslParser.IR), runStmts ir stmts = .ok ir2 →
      (∀ p ∈ ir.objects, dictGet p.2.attrs "id" = some (Value.str p.2.id) ∧
        p.2.id ≠ "" ∧ p.1 = p.2.id) →
      ∀ p ∈ ir2.objects, dictGet p.2.attrs "id" = some (Value.str p.2.id) ∧
        p.2.id ≠ "" ∧ p.1 = p.2.id := by
  induction stmts with
  | nil =>
      intro ir ir2 h hinv
      rw [← Except.ok.inj h]
      exact hinv
  | cons s rest ih =>
      intro ir ir2 h hinv
      simp only [runStmts] at h
      rcases hr : runStmt ir s with e2 | ir3
      · simp only [hr] at h
        exact Except.noConfusion h
      · simp only [hr] at h
        refine ih ir3 ir2 h ?_
        match s with
        | .addStmt typ id r extra loc =>
            obtain ⟨oid, hg, hne, hobjs⟩ := add_stmt_ok_inv ir typ
              (merge_front (mandKvs id r) extra) loc ir3 hr
            rw [hobjs]
            intro p hp
            rcases List.mem_append.mp hp with h5 | h5
            · exact hinv p h5
            · have h6 : p = (oid, ⟨oid, typ, merge_front (mandKvs id r) extra, loc⟩) := by
                simpa using h5
              rw [h6]
              exact ⟨hg, hne, rfl⟩
        | .connectStmt items loc =>
            simp only [runStmt, connect_stmt] at hr
            rw [← Except.ok.inj hr]
            exact hinv
        | .otherStmt =>
            simp only [runStmt] at hr
            rw [← Except.ok.inj hr]
            exact hinv

/-- C10: in the object table of any successfully parsed IR, every stored
object carries the `id` attribute, its value is the string equal to the
object id field, that id is non-empty, and the table key equals it: the
registration step reads the id from the merged attribute dict, rejects an
absent or empty value, and stores the object under that very id. -/
theorem claim_c10_id_invariant (stmts : List Stmt) (ir : DslParser.IR)
    (h : parse stmts = .ok ir) :
    ∀ p ∈ ir.objects, dictGet p.2.attrs "id" = some (Value.str p.2.id) ∧
      p.2.id ≠ "" ∧ p.1 = p.2.id := by
  refine runStmts_objects_inv stmts DslParser.emptyIR ir h ?_
  intro p hp
  exact absurd hp (List.not_mem_nil p)

/-- Witness for C10 at the scenario-1 statements. -/
theorem claim_c10_witness :
    parse c1Stmts = .ok c1IR ∧
      ∀ p ∈ c1IR.objects, dictGet p.2.attrs "id" = some (Value.str p.2.id) ∧
        p.2.id ≠ "" ∧ p.1 = p.2.id :=
  ⟨rfl, claim_c10_id_invariant c1Stmts c1IR rfl⟩

/-- C7: parsing is deterministic.  Each `parse` call allocates a fresh
transformer state and is a pure function of its input, so two parses of the
same statement list agree on the object table (attribute maps and recorded
locations included), the chain list, and the page, style and meta maps. -/
theorem claim_c7_determinism (stmts : List Stmt) (ir1 ir2 : DslParser.IR)
    (h1 : parse stmts = .ok ir1) (h2 : parse stmts = .ok ir2) :
    ir1.objects = ir2.objects ∧ ir1.series = ir2.series ∧
      ir1.pages = ir2.pages ∧ ir1.style = ir2.style ∧ ir1.meta = ir2.meta := by
  rw [h1] at h2
  rw [Except.ok.inj h2]
  exact ⟨rfl, rfl, rfl, rfl, rfl⟩

/-- Witness for C7 at the scenario-1 statements. -/
theorem claim_c7_witness :
    c1IR.objects = c1IR.objects ∧ c1IR.series = c1IR.series ∧
      c1IR.pages = c1IR.pages ∧ c1IR.style = c1IR.style ∧ c1IR.meta = c1IR.meta :=
  claim_c7_determinism c1Stmts c1IR c1IR rfl rfl

/-- C1: the scenario parses to two objects and one chain, and the chains
themselves (the `ir_types.IR` view that `validate` is typed against) pass
validation — but `validate` applied directly to the IR that `parse`
returns does not succeed: each entry of that `series` list is a
`(chain, location)` pair, and the voltage loop evaluates
`ir.objects.get(chain)` with the unhashable chain list as key, so CPython
raises `TypeError` instead of returning normally. -/
theorem claim_c1_scenario_code_bug :
    parse c1Stmts = .ok c1IR ∧ c1IR.objects.length = 2 ∧
      c1IR.series.length = 1 ∧ validate (toIrTypes c1IR) = .ok () ∧
      validateParsed c1IR = .error (.pyTypeError "unhashable type: list") :=
  ⟨rfl, rfl, rfl, rfl, rfl⟩
